import Mathlib

/-!
Verification of the miniRedis server (src/miniRedis.py): a shallow embedding of
the wire codec (class ProtocolHandler), the command dispatcher and the store
(class Server), with theorems about the snapshot merge/restore semantics, the
encode/decode round trip, and the error paths.

Byte strings are modeled as `List Nat` (one entry per byte), byte streams as
`List Nat` consumed from the front.  Python exceptions are modeled by an
explicit error type threaded through `Except`.
-/

namespace MiniRedis

/-- The Python runtime values that flow through the protocol and the store:
bytes, int, bool, float, the Error namedtuple, list, dict and None.
Python float is modeled as a rational number.  A dict is modeled as its
insertion-ordered key/value pairs. -/
inductive Value where
  | bytes (b : List Nat) : Value
  | int (n : Int) : Value
  | bool (b : Bool) : Value
  | float (q : Rat) : Value
  | err (msg : List Nat) : Value
  | array (xs : List Value) : Value
  | dict (kvs : List (Value × Value)) : Value
  | null : Value

mutual
/-- Structural equality of modeled Python values (Python ==). -/
def beqV : Value → Value → Bool
  | .bytes a, .bytes b => a == b
  | .int a, .int b => a == b
  | .bool a, .bool b => a == b
  | .float a, .float b => a == b
  | .err a, .err b => a == b
  | .array a, .array b => beqL a b
  | .dict a, .dict b => beqP a b
  | .null, .null => true
  | _, _ => false

def beqL : List Value → List Value → Bool
  | [], [] => true
  | x :: xs, y :: ys => beqV x y && beqL xs ys
  | _, _ => false

def beqP : List (Value × Value) → List (Value × Value) → Bool
  | [], [] => true
  | (k1, v1) :: xs, (k2, v2) :: ys => beqV k1 k2 && beqV v1 v2 && beqP xs ys
  | _, _ => false
end

mutual
theorem beqV_refl : ∀ a : Value, beqV a a = true
  | .bytes a => by simp [beqV]
  | .int a => by simp [beqV]
  | .bool a => by simp [beqV]
  | .float a => by simp [beqV]
  | .err a => by simp [beqV]
  | .array a => by simp [beqV, beqL_refl a]
  | .dict a => by simp [beqV, beqP_refl a]
  | .null => by simp [beqV]

theorem beqL_refl : ∀ xs : List Value, beqL xs xs = true
  | [] => by simp [beqL]
  | x :: xs => by simp [beqL, beqV_refl x, beqL_refl xs]

theorem beqP_refl : ∀ kvs : List (Value × Value), beqP kvs kvs = true
  | [] => by simp [beqP]
  | (k, v) :: kvs => by simp [beqP, beqV_refl k, beqV_refl v, beqP_refl kvs]
end

mutual
theorem eq_of_beqV : ∀ a b : Value, beqV a b = true → a = b
  | .bytes a, b, h => by cases b <;> simp_all [beqV]
  | .int a, b, h => by cases b <;> simp_all [beqV]
  | .bool a, b, h => by cases b <;> simp_all [beqV]
  | .float a, b, h => by cases b <;> simp_all [beqV]
  | .err a, b, h => by cases b <;> simp_all [beqV]
  | .null, b, h => by cases b <;> simp_all [beqV]
  | .array xs, .array ys, h => congrArg Value.array (eq_of_beqL xs ys (by simpa [beqV] using h))
  | .array _, .bytes _, h => by simp [beqV] at h
  | .array _, .int _, h => by simp [beqV] at h
  | .array _, .bool _, h => by simp [beqV] at h
  | .array _, .float _, h => by simp [beqV] at h
  | .array _, .err _, h => by simp [beqV] at h
  | .array _, .dict _, h => by simp [beqV] at h
  | .array _, .null, h => by simp [beqV] at h
  | .dict kvs, .dict kvs2, h => congrArg Value.dict (eq_of_beqP kvs kvs2 (by simpa [beqV] using h))
  | .dict _, .bytes _, h => by simp [beqV] at h
  | .dict _, .int _, h => by simp [beqV] at h
  | .dict _, .bool _, h => by simp [beqV] at h
  | .dict _, .float _, h => by simp [beqV] at h
  | .dict _, .err _, h => by simp [beqV] at h
  | .dict _, .array _, h => by simp [beqV] at h
  | .dict _, .null, h => by simp [beqV] at h

theorem eq_of_beqL : ∀ xs ys : List Value, beqL xs ys = true → xs = ys
  | [], [], _ => rfl
  | x :: xs, y :: ys, h => by
      simp only [beqL, Bool.and_eq_true] at h
      simp [eq_of_beqV x y h.1, eq_of_beqL xs ys h.2]
  | [], _ :: _, h => by simp [beqL] at h
  | _ :: _, [], h => by simp [beqL] at h

theorem eq_of_beqP : ∀ xs ys : List (Value × Value), beqP xs ys = true → xs = ys
  | [], [], _ => rfl
  | (k1, v1) :: xs, (k2, v2) :: ys, h => by
      simp only [beqP, Bool.and_eq_true] at h
      simp [eq_of_beqV k1 k2 h.1.1, eq_of_beqV v1 v2 h.1.2, eq_of_beqP xs ys h.2]
  | [], _ :: _, h => by simp [beqP] at h
  | _ :: _, [], h => by simp [beqP] at h
end

instance : DecidableEq Value := fun a b =>
  decidable_of_iff (beqV a b = true) ⟨eq_of_beqV a b, fun h => h ▸ beqV_refl a⟩

deriving instance DecidableEq for Except

/-! ## Python exceptions

`CommandError.__init__` (src lines 22-25) stores the message on the instance
but calls `Exception.__init__` with NO arguments, so the `args` tuple of a
raised CommandError is always empty.  We model the exception object with both
fields so that the connection loop access `exc.args[0]` can be traced. -/

/-- The messages the dispatcher passes to CommandError, structured. -/
inductive CmdMsg where
  | requestMustBeListOrSimpleString
  | missingCommand
  | unrecognizedCommand (cmd : List Nat)
  deriving DecidableEq

/-- A raised CommandError instance: `message` is the attribute set by
`__init__`; `args` is the Exception args tuple, left EMPTY by
`super(CommandError, self).__init__()`. -/
structure CommandErrorExc where
  message : CmdMsg
  args : List (List Nat)
  deriving DecidableEq

/-- The Python exceptions that can escape the modeled code paths. -/
inductive PyExc where
  | eof
  | valueError
  | typeError
  | attributeError
  | indexError
  | unpicklingError
  | clientQuit
  | shutdown
  | commandError (e : CommandErrorExc)
  deriving DecidableEq

/-- Raising CommandError(msg): the message is stored, the args tuple stays
empty because `__init__` does not forward the message to `Exception`. -/
def raiseCommandError (m : CmdMsg) : PyExc := .commandError ⟨m, []⟩

/-! ## Byte-string helpers -/

/-- Python bytes.rstrip(CRLF): drop every trailing 13 or 10 byte. -/
def rstripCRLF (l : List Nat) : List Nat :=
  (List.dropWhile (fun c => c == 13 || c == 10) l.reverse).reverse

/-- socket_file.readline(): consume up to and including the first newline
byte (10); at end of stream return whatever is left.  Returns the line and
the remaining stream. -/
def readLine : List Nat → List Nat × List Nat
  | [] => ([], [])
  | c :: rest =>
    if c = 10 then ([10], rest)
    else
      let (l, r) := readLine rest
      (c :: l, r)

/-- Python slice b[:-2]: all but the last two bytes. -/
def stripLast2 (l : List Nat) : List Nat := l.take (l.length - 2)

/-- Python slice l[::2] (elements at even positions). -/
def evens {α : Type _} : List α → List α
  | [] => []
  | [x] => [x]
  | x :: _ :: rest => x :: evens rest

/-- Python slice l[1::2] (elements at odd positions). -/
def odds {α : Type _} : List α → List α
  | [] => []
  | [_] => []
  | _ :: y :: rest => y :: odds rest

/-- Python bytes.upper(): ASCII-only uppercasing. -/
def upperBytes (b : List Nat) : List Nat :=
  b.map (fun c => if 97 ≤ c ∧ c ≤ 122 then c - 32 else c)

/-- The whitespace bytes recognized by Python bytes.split(). -/
def isPySpace (c : Nat) : Bool :=
  c == 32 || c == 9 || c == 10 || c == 13 || c == 11 || c == 12

/-- Worker for `pySplit`; `cur` holds the bytes of the current word reversed. -/
def pySplitGo (cur : List Nat) : List Nat → List (List Nat)
  | [] => if cur = [] then [] else [cur.reverse]
  | c :: rest =>
    if isPySpace c then
      if cur = [] then pySplitGo [] rest
      else cur.reverse :: pySplitGo [] rest
    else pySplitGo (c :: cur) rest

/-- Python bytes.split() with no argument: split on runs of whitespace,
discarding empty words. -/
def pySplit (b : List Nat) : List (List Nat) := pySplitGo [] b

/-! ## ASCII decimal integers

The wire protocol transports lengths, counts and integers as ASCII decimal
lines.  `natAscii`/`intAscii` model the bytes produced by the %d format;
`pyInt` models the Python int() constructor on the byte strings that occur
on the wire (optional sign followed by decimal digits). -/

/-- Decimal ASCII digits of a positive natural, most significant first.
The first argument is fuel, always called with at least the number itself. -/
def natAsciiAux : Nat → Nat → List Nat
  | 0, _ => []
  | _ + 1, 0 => []
  | fuel + 1, n + 1 => natAsciiAux fuel ((n + 1) / 10) ++ [(n + 1) % 10 + 48]

/-- The ASCII decimal representation of a natural number. -/
def natAscii (n : Nat) : List Nat := if n = 0 then [48] else natAsciiAux n n

/-- The ASCII decimal representation of an integer (%d format). -/
def intAscii (n : Int) : List Nat :=
  if n < 0 then 45 :: natAscii n.natAbs else natAscii n.toNat

/-- The numeric value of one ASCII digit byte. -/
def digitVal (c : Nat) : Option Nat :=
  if 48 ≤ c ∧ c ≤ 57 then some (c - 48) else none

/-- One step of decimal accumulation; none once a non-digit was seen. -/
def parseStep (acc : Option Nat) (c : Nat) : Option Nat :=
  match acc, digitVal c with
  | some a, some d => some (a * 10 + d)
  | _, _ => none

/-- Parse a nonempty all-digit byte string as a natural number. -/
def parseNat (s : List Nat) : Option Nat :=
  if s = [] then none else s.foldl parseStep (some 0)

/-- Python int() on a byte string: optional sign then decimal digits;
none models the ValueError raised on anything else. -/
def pyInt (s : List Nat) : Option Int :=
  match s with
  | [] => none
  | c :: rest =>
    if c = 45 then
      match parseNat rest with
      | none => none
      | some n => some (-(n : Int))
    else if c = 43 then
      match parseNat rest with
      | none => none
      | some n => some ((n : Int))
    else
      match parseNat (c :: rest) with
      | none => none
      | some n => some ((n : Int))

/-! ## Python dict operations

A dict is an insertion-ordered association list with unique keys.
Assignment d[k] = v replaces the value at an existing key in place,
otherwise appends.  list and dict values are unhashable and cannot be
used as keys. -/

/-- Python hashability of the modeled values: list and dict are unhashable. -/
def hashable : Value → Bool
  | .array _ => false
  | .dict _ => false
  | _ => true

/-- Python d.get(k) / d[k] lookup on the association list. -/
def dictLookup : List (Value × Value) → Value → Option Value
  | [], _ => none
  | (k1, v1) :: rest, k => if k1 = k then some v1 else dictLookup rest k

/-- Python d[k] = v: replace in place if the key exists, else append. -/
def dictInsert : List (Value × Value) → Value → Value → List (Value × Value)
  | [], k, v => [(k, v)]
  | (k1, v1) :: rest, k, v =>
    if k1 = k then (k1, v) :: rest else (k1, v1) :: dictInsert rest k v

/-- Python del d[k]: remove the entry with the given key. -/
def dictRemove : List (Value × Value) → Value → List (Value × Value)
  | [], _ => []
  | (k1, v1) :: rest, k => if k1 = k then rest else (k1, v1) :: dictRemove rest k

/-- Python orig.update(updates): assign every pair of updates into orig,
in order. -/
def dictUpdate (orig updates : List (Value × Value)) : List (Value × Value) :=
  updates.foldl (fun d p => dictInsert d p.1 p.2) orig

/-- Python dict(pairs): build a dict from a pair list by successive
assignment into an empty dict (first-occurrence position, last value wins). -/
def pyDict (ps : List (Value × Value)) : List (Value × Value) := dictUpdate [] ps

/-- Keys with no earlier duplicate, as a Bool (Python dict invariant). -/
def nodupKeys : List Value → Bool
  | [] => true
  | k :: ks => decide (k ∉ ks) && nodupKeys ks

/-! ## The decoder: ProtocolHandler.handle_request (src lines 69-106)

The recursion of handle_array/handle_dict into handle_request is paid for
with explicit fuel; `decode` supplies stream length + 1, which covers every
stream because each nested call consumes at least the tag byte. -/

/-- The shared line-to-int step `int(socket_file.readline().rstrip(CRLF))`,
used by handle_integer, handle_string, handle_array and handle_dict.
A parse failure is the uncaught ValueError from int(). -/
def readIntLine (s : List Nat) : Except PyExc (Int × List Nat) :=
  let p := readLine s
  match pyInt (rstripCRLF p.1) with
  | none => .error .valueError
  | some n => .ok (n, p.2)

/-- Read `count` values with the given one-value reader, as the list
comprehensions in handle_array/handle_dict do; range of a negative count
is empty, which the caller models with Int.toNat. -/
def readManyWith (next : List Nat → Except PyExc (Value × List Nat)) :
    Nat → List Nat → Except PyExc (List Value × List Nat)
  | 0, s => .ok ([], s)
  | n + 1, s =>
    match next s with
    | .error e => .error e
    | .ok (v, s1) =>
      match readManyWith next n s1 with
      | .error e => .error e
      | .ok (vs, s2) => .ok (v :: vs, s2)

/-- One layer of ProtocolHandler.handle_request: read the tag byte and
delegate; `next` decodes one nested value (handle_request itself, one fuel
level down).  An empty stream is the EOFError raised on empty first_byte;
an unknown tag byte is prepended to the rest of the line (lines 78-80).
Tags: 43 is the plus sign, 45 minus, 58 colon, 36 dollar, 42 star,
37 percent. -/
def handleStep (next : List Nat → Except PyExc (Value × List Nat))
    (s : List Nat) : Except PyExc (Value × List Nat) :=
  match s with
  | [] => .error .eof
  | c :: s1 =>
    if c = 43 then
      let p := readLine s1
      .ok (.bytes (rstripCRLF p.1), p.2)
    else if c = 45 then
      let p := readLine s1
      .ok (.err (rstripCRLF p.1), p.2)
    else if c = 58 then
      match readIntLine s1 with
      | .error e => .error e
      | .ok (n, rest) => .ok (.int n, rest)
    else if c = 36 then
      match readIntLine s1 with
      | .error e => .error e
      | .ok (n, rest) =>
        if n = -1 then .ok (.null, rest)
        else
          -- length += 2; return socket_file.read(length)[:-2]
          -- read(-1) reads the whole remaining stream; a buffered read
          -- of any other negative size raises ValueError.
          if n + 2 = -1 then .ok (.bytes (stripLast2 rest), [])
          else if n + 2 < 0 then .error .valueError
          else .ok (.bytes (stripLast2 (rest.take (n + 2).toNat)),
                    rest.drop (n + 2).toNat)
    else if c = 42 then
      match readIntLine s1 with
      | .error e => .error e
      | .ok (n, rest) =>
        match readManyWith next n.toNat rest with
        | .error e => .error e
        | .ok (vs, rest2) => .ok (.array vs, rest2)
    else if c = 37 then
      match readIntLine s1 with
      | .error e => .error e
      | .ok (n, rest) =>
        match readManyWith next (n.toNat * 2) rest with
        | .error e => .error e
        | .ok (vs, rest2) =>
          -- dict(zip(elements[::2], elements[1::2])); an unhashable key
          -- raises TypeError.
          if (evens vs).all hashable then
            .ok (.dict (pyDict ((evens vs).zip (odds vs))), rest2)
          else .error .typeError
    else
      let p := readLine s1
      .ok (.bytes (c :: rstripCRLF p.1), p.2)

/-- ProtocolHandler.handle_request with explicit recursion fuel. -/
def handleRequest : Nat → List Nat → Except PyExc (Value × List Nat)
  | 0, _ => .error .eof
  | fuel + 1, s => handleStep (handleRequest fuel) s

/-- Decode one value from the front of a byte stream.  Fuel stream length
plus one always suffices, since every nested handle_request call consumes
at least one byte first. -/
def decode (s : List Nat) : Except PyExc (Value × List Nat) :=
  handleRequest (s.length + 1) s

/-! ## The encoder: ProtocolHandler._write (src lines 117-139) -/

/-- Truncation of a rational toward zero, the effect of the %d format on a
Python float. -/
def ratTrunc (q : Rat) : Int :=
  if 0 ≤ q.num then ((q.num.toNat / q.den : Nat) : Int)
  else -((q.num.natAbs / q.den : Nat) : Int)

mutual
/-- ProtocolHandler._write: serialize one value.  bytes become a bulk
string, int/bool/float an integer line (bool is an int subclass and True
formats as 1; float is truncated by %d), Error an error line, list an
array, dict a mapping, None the length -1 bulk string. -/
def encV : Value → List Nat
  | .bytes b => 36 :: (natAscii b.length ++ 13 :: 10 :: b ++ [13, 10])
  | .int n => 58 :: (intAscii n ++ [13, 10])
  | .bool b => 58 :: (intAscii (if b then 1 else 0) ++ [13, 10])
  | .float q => 58 :: (intAscii (ratTrunc q) ++ [13, 10])
  | .err m => 45 :: (m ++ [13, 10])
  | .array xs => 42 :: (natAscii xs.length ++ 13 :: 10 :: encList xs)
  | .dict kvs => 37 :: (natAscii kvs.length ++ 13 :: 10 :: encPairs kvs)
  | .null => [36, 45, 49, 13, 10]

/-- Serialize the items of a list, in order. -/
def encList : List Value → List Nat
  | [] => []
  | x :: xs => encV x ++ encList xs

/-- Serialize the pairs of a dict: key then value, in iteration order. -/
def encPairs : List (Value × Value) → List Nat
  | [] => []
  | (k, v) :: kvs => encV k ++ encV v ++ encPairs kvs
end

/-- The flattened element sequence a dict serializes to. -/
def flatPairs : List (Value × Value) → List Value
  | [] => []
  | (k, v) :: rest => k :: v :: flatPairs rest

/-! ## Well-formed wire values

The values expressible by the wire grammar and realizable as decoder
output: bytes and error bytes are 8-bit, an error message is a single line
already stripped of trailing CR/LF, dict keys are hashable and unique.
bool and float are excluded: the encoder collapses them into integer
frames. -/

mutual
def wf : Value → Bool
  | .bytes b => b.all (fun c => decide (c < 256))
  | .int _ => true
  | .bool _ => false
  | .float _ => false
  | .err m => m.all (fun c => decide (c < 256)) && decide (10 ∉ m)
      && decide (rstripCRLF m = m)
  | .array xs => wfList xs
  | .dict kvs => wfPairs kvs && (kvs.map Prod.fst).all hashable
      && nodupKeys (kvs.map Prod.fst)
  | .null => true

def wfList : List Value → Bool
  | [] => true
  | x :: xs => wf x && wfList xs

def wfPairs : List (Value × Value) → Bool
  | [] => true
  | (k, v) :: rest => wf k && wf v && wfPairs rest
end

/-! ## The server: class Server (src lines 150-293) -/

/-- The mutable state of one Server instance: the keyspace dict `_kv` and
the `_schedule` list. -/
structure ServerState where
  kv : List (Value × Value)
  schedule : List Value
  deriving DecidableEq

/-- What lies at a path on disk: no file, a file pickle.load rejects, or a
pickled {kv, schedule} state. -/
inductive FileStatus where
  | absent
  | corrupt
  | found (state : ServerState)
  deriving DecidableEq

/-- The filesystem as seen through os.path.exists and pickle.load. -/
def FS : Type := Value → FileStatus

/-- Python truthiness of the modeled values. -/
def truthy : Value → Bool
  | .bytes b => decide (b ≠ [])
  | .int n => decide (n ≠ 0)
  | .bool b => b
  | .float q => decide (q ≠ 0)
  | .err _ => true
  | .array xs => decide (xs ≠ [])
  | .dict kvs => decide (kvs ≠ [])
  | .null => false

namespace Server

/-- Server._set_state (src lines 198-208).  Without merge the loaded state
replaces the local state wholesale.  With merge the LOADED map is updated
with the LOCAL entries - merge(orig, updates) is called with orig =
state[kv] and updates = self._kv - and the schedule is replaced wholesale.
The merge flag is any Python value; only its truthiness is consulted. -/
def set_state (st loaded : ServerState) (merge : Value) : ServerState :=
  if truthy merge = false then loaded
  else { kv := dictUpdate loaded.kv st.kv, schedule := loaded.schedule }

/-- Server.restore_from_disk (src lines 219-225): false when the path does
not exist; the uncaught exception of pickle.load on a file it cannot
deserialize; otherwise set_state and True. -/
def restore_from_disk (fs : FS) (st : ServerState) (filename merge : Value) :
    Except PyExc (Value × ServerState) :=
  match fs filename with
  | .absent => .ok (.bool false, st)
  | .corrupt => .error .unpicklingError
  | .found state => .ok (.bool true, set_state st state merge)

/-- Server.merge_from_disk (src lines 228-229). -/
def merge_from_disk (fs : FS) (st : ServerState) (filename : Value) :
    Except PyExc (Value × ServerState) :=
  restore_from_disk fs st filename (.bool true)

/-- Server.save_to_disk (src lines 211-216): pickles the state to the
per-process file and returns True.  The disk write itself is input/output
outside the store state. -/
def save_to_disk (st : ServerState) : Except PyExc (Value × ServerState) :=
  .ok (.bool true, st)

/-- Server.get (src lines 237-238): dict.get, None when absent; an
unhashable key raises TypeError. -/
def get (st : ServerState) (key : Value) : Except PyExc (Value × ServerState) :=
  if hashable key then .ok ((dictLookup st.kv key).getD .null, st)
  else .error .typeError

/-- Server.set (src lines 240-242). -/
def set (st : ServerState) (key value : Value) :
    Except PyExc (Value × ServerState) :=
  if hashable key then .ok (.int 1, { st with kv := dictInsert st.kv key value })
  else .error .typeError

/-- Server.delete (src lines 244-248). -/
def delete (st : ServerState) (key : Value) :
    Except PyExc (Value × ServerState) :=
  if hashable key then
    if (dictLookup st.kv key).isSome then
      .ok (.int 1, { st with kv := dictRemove st.kv key })
    else .ok (.int 0, st)
  else .error .typeError

/-- Server.flush (src lines 250-253). -/
def flush (st : ServerState) : Except PyExc (Value × ServerState) :=
  .ok (.int st.kv.length, { st with kv := [] })

/-- The list comprehension of Server.mget: one dict.get per key, left to
right, None for an absent key. -/
def mgetLoop (d : List (Value × Value)) : List Value → Except PyExc (List Value)
  | [] => .ok []
  | k :: ks =>
    if hashable k then
      match mgetLoop d ks with
      | .error e => .error e
      | .ok vs => .ok ((dictLookup d k).getD .null :: vs)
    else .error .typeError

/-- Server.mget (src lines 255-256). -/
def mget (st : ServerState) (keys : List Value) :
    Except PyExc (Value × ServerState) :=
  match mgetLoop st.kv keys with
  | .error e => .error e
  | .ok vs => .ok (.array vs, st)

/-- The assignment loop of Server.mset, one dict assignment per pair. -/
def msetLoop (d : List (Value × Value)) :
    List (Value × Value) → Except PyExc (List (Value × Value))
  | [] => .ok d
  | (k, v) :: ps =>
    if hashable k then msetLoop (dictInsert d k v) ps
    else .error .typeError

/-- Server.mset (src lines 258-262): pair the arguments at even positions
with the following odd positions (zip truncates an unpaired trailing key),
store each pair, return the pair count. -/
def mset (st : ServerState) (items : List Value) :
    Except PyExc (Value × ServerState) :=
  match msetLoop st.kv ((evens items).zip (odds items)) with
  | .error e => .error e
  | .ok kv2 => .ok (.int ((evens items).zip (odds items)).length, { st with kv := kv2 })

/-- Server.client_quit (src lines 231-232). -/
def client_quit : PyExc := .clientQuit

/-- Server.shutdown (src lines 234-235). -/
def shutdown : PyExc := .shutdown

/-! Command-name byte strings, the keys of Server.get_commands. -/

def bGET : List Nat := [71, 69, 84]
def bSET : List Nat := [83, 69, 84]
def bDELETE : List Nat := [68, 69, 76, 69, 84, 69]
def bFLUSH : List Nat := [70, 76, 85, 83, 72]
def bMGET : List Nat := [77, 71, 69, 84]
def bMSET : List Nat := [77, 83, 69, 84]
def bSAVE : List Nat := [83, 65, 86, 69]
def bRESTORE : List Nat := [82, 69, 83, 84, 79, 82, 69]
def bMERGE : List Nat := [77, 69, 82, 71, 69]
def bQUIT : List Nat := [81, 85, 73, 84]
def bSHUTDOWN : List Nat := [83, 72, 85, 84, 68, 79, 87, 78]

/-- The call self._commands[command](*data[1:]): look the (uppercased)
name up in the command table and apply the bound method to the remaining
arguments.  A wrong argument count raises TypeError from the call itself
- no handler validates arity.  An unknown name raises
CommandError(Unrecognized command) from get_response (line 192). -/
def execCommand (fs : FS) (st : ServerState) (cmd : List Nat)
    (args : List Value) : Except PyExc (Value × ServerState) :=
  if cmd = bGET then
    match args with
    | [k] => get st k
    | _ => .error .typeError
  else if cmd = bSET then
    match args with
    | [k, v] => set st k v
    | _ => .error .typeError
  else if cmd = bDELETE then
    match args with
    | [k] => delete st k
    | _ => .error .typeError
  else if cmd = bFLUSH then
    match args with
    | [] => flush st
    | _ => .error .typeError
  else if cmd = bMGET then
    mget st args
  else if cmd = bMSET then
    mset st args
  else if cmd = bSAVE then
    match args with
    | [] => save_to_disk st
    | _ => .error .typeError
  else if cmd = bRESTORE then
    match args with
    | [f] => restore_from_disk fs st f (.bool false)
    | [f, m] => restore_from_disk fs st f m
    | _ => .error .typeError
  else if cmd = bMERGE then
    match args with
    | [f] => merge_from_disk fs st f
    | _ => .error .typeError
  else if cmd = bQUIT then
    match args with
    | [] => .error client_quit
    | _ => .error .typeError
  else if cmd = bSHUTDOWN then
    match args with
    | [] => .error shutdown
    | _ => .error .typeError
  else .error (raiseCommandError (.unrecognizedCommand cmd))

/-- Server.get_response (src lines 179-193).  A non-list request is
whitespace-split if it is bytes (anything without a split method becomes
CommandError through the bare except); an empty request raises
CommandError(Missing command); the first element is uppercased (a non-bytes
first element raises an uncaught AttributeError) and dispatched. -/
def get_response (fs : FS) (st : ServerState) (data : Value) :
    Except PyExc (Value × ServerState) :=
  match (match data with
         | .array xs => Except.ok xs
         | .bytes b => Except.ok ((pySplit b).map Value.bytes)
         | _ => Except.error (raiseCommandError .requestMustBeListOrSimpleString)) with
  | .error e => .error e
  | .ok args =>
    match args with
    | [] => .error (raiseCommandError .missingCommand)
    | first :: rest =>
      match first with
      | .bytes cb => execCommand fs st (upperBytes cb) rest
      | _ => .error .attributeError

/-- The outcome of one response turn of Server.connection_handler for a
decoded request: a response value was written and the loop continues, or
an uncaught exception terminated the handler (no response, connection
dead). -/
inductive ConnStep where
  | reply (resp : Value) (st : ServerState)
  | crashed (e : PyExc) (st : ServerState)
  deriving DecidableEq

/-- The response half of Server.connection_handler (src lines 285-290):
get_response, with only CommandError caught; the handler then evaluates
Error(exc.args[0]), which raises IndexError whenever args is empty - and
raiseCommandError always leaves it empty.  Every other exception
(TypeError, ClientQuit, Shutdown, ...) propagates and kills the handler. -/
def connection_step (fs : FS) (st : ServerState) (data : Value) : ConnStep :=
  match get_response fs st data with
  | .ok (resp, st1) => .reply resp st1
  | .error (.commandError e) =>
    match e.args with
    | [] => .crashed .indexError st
    | m :: _ => .reply (.err m) st
  | .error e => .crashed e st

end Server

/-! ## Lemmas: the ASCII decimal codec -/

theorem natAsciiAux_mem : ∀ fuel n c, c ∈ natAsciiAux fuel n → 48 ≤ c ∧ c ≤ 57
  | 0, _, c, h => by simp [natAsciiAux] at h
  | _ + 1, 0, c, h => by simp [natAsciiAux] at h
  | fuel + 1, n + 1, c, h => by
      simp only [natAsciiAux, List.mem_append, List.mem_singleton] at h
      rcases h with h | h
      · exact natAsciiAux_mem fuel _ c h
      · omega

theorem digitVal_eq (c : Nat) (h1 : 48 ≤ c) (h2 : c ≤ 57) :
    digitVal c = some (c - 48) := by
  unfold digitVal
  rw [if_pos ⟨h1, h2⟩]

theorem parseStep_digit (a c : Nat) (h1 : 48 ≤ c) (h2 : c ≤ 57) :
    parseStep (some a) c = some (a * 10 + (c - 48)) := by
  unfold parseStep
  rw [digitVal_eq c h1 h2]

theorem natAsciiAux_foldl : ∀ fuel n, n ≤ fuel → ∀ a : Nat,
    (natAsciiAux fuel n).foldl parseStep (some a)
      = some (a * 10 ^ (natAsciiAux fuel n).length + n)
  | 0, n, h, a => by
      have hn : n = 0 := by omega
      subst hn
      simp [natAsciiAux]
  | fuel + 1, 0, _, a => by simp [natAsciiAux]
  | fuel + 1, n + 1, h, a => by
      have hrec : (n + 1) / 10 ≤ fuel := by omega
      simp only [natAsciiAux, List.foldl_append, List.length_append,
        List.length_singleton]
      rw [natAsciiAux_foldl fuel ((n + 1) / 10) hrec a]
      simp only [List.foldl_cons, List.foldl_nil]
      rw [parseStep_digit _ _ (by omega) (by omega)]
      have hdm : (n + 1) / 10 * 10 + (n + 1) % 10 = n + 1 := by omega
      have hd : (n + 1) % 10 + 48 - 48 = (n + 1) % 10 := by omega
      rw [hd]
      congr 1
      calc (a * 10 ^ (natAsciiAux fuel ((n + 1) / 10)).length + (n + 1) / 10) * 10
          + (n + 1) % 10
        = a * (10 ^ (natAsciiAux fuel ((n + 1) / 10)).length * 10)
            + ((n + 1) / 10 * 10 + (n + 1) % 10) := by ring
      _ = a * 10 ^ ((natAsciiAux fuel ((n + 1) / 10)).length + 1) + (n + 1) := by
            rw [hdm, pow_succ]

theorem natAscii_mem (n : Nat) : ∀ c ∈ natAscii n, 48 ≤ c ∧ c ≤ 57 := by
  intro c hc
  unfold natAscii at hc
  split at hc
  · simp at hc
    omega
  · exact natAsciiAux_mem n n c hc

theorem natAsciiAux_ne_nil : ∀ fuel n, 1 ≤ n → n ≤ fuel → natAsciiAux fuel n ≠ [] := by
  intro fuel n h1 h2
  cases fuel with
  | zero => omega
  | succ f =>
    cases n with
    | zero => omega
    | succ m => simp [natAsciiAux]

theorem natAscii_ne_nil (n : Nat) : natAscii n ≠ [] := by
  unfold natAscii
  split
  · simp
  · exact natAsciiAux_ne_nil n n (by omega) le_rfl

theorem parseNat_natAscii (n : Nat) : parseNat (natAscii n) = some n := by
  rcases eq_or_ne n 0 with h0 | h0
  · subst h0
    decide
  · unfold parseNat
    rw [if_neg (natAscii_ne_nil n)]
    unfold natAscii
    rw [if_neg h0]
    rw [natAsciiAux_foldl n n le_rfl 0]
    simp

theorem pyInt_natAscii (n : Nat) : pyInt (natAscii n) = some (n : Int) := by
  obtain ⟨c, rest, hcr⟩ : ∃ c rest, natAscii n = c :: rest := by
    cases h : natAscii n with
    | nil => exact absurd h (natAscii_ne_nil n)
    | cons c rest => exact ⟨c, rest, rfl⟩
  have hc : 48 ≤ c ∧ c ≤ 57 :=
    natAscii_mem n c (by rw [hcr]; exact List.mem_cons_self _ _)
  rw [hcr]
  simp only [pyInt]
  rw [if_neg (by omega), if_neg (by omega)]
  rw [← hcr, parseNat_natAscii]

theorem intAscii_mem (n : Int) : ∀ c ∈ intAscii n, c = 45 ∨ (48 ≤ c ∧ c ≤ 57) := by
  intro c hc
  unfold intAscii at hc
  split at hc
  · rcases List.mem_cons.mp hc with h | h
    · exact Or.inl h
    · exact Or.inr (natAscii_mem _ c h)
  · exact Or.inr (natAscii_mem _ c hc)

theorem intAscii_ne_nil (n : Int) : intAscii n ≠ [] := by
  unfold intAscii
  split
  · simp
  · exact natAscii_ne_nil _

theorem pyInt_intAscii (n : Int) : pyInt (intAscii n) = some n := by
  unfold intAscii
  split
  · rename_i hn
    show pyInt (45 :: natAscii n.natAbs) = some n
    rw [show pyInt (45 :: natAscii n.natAbs)
          = (match parseNat (natAscii n.natAbs) with
             | none => none
             | some k => some (-(k : Int))) from rfl]
    rw [parseNat_natAscii]
    simp only [Option.some.injEq]
    omega
  · rename_i hn
    rw [pyInt_natAscii]
    congr 1
    omega

/-! ## Lemmas: lines and stripping -/

theorem readLine_append : ∀ (l : List Nat), 10 ∉ l → ∀ rest : List Nat,
    readLine (l ++ 10 :: rest) = (l ++ [10], rest)
  | [], _, rest => by simp [readLine]
  | c :: l, h, rest => by
    have hc : ¬(c = 10) := by
      intro hc
      exact h (by simp [hc])
    have hl : 10 ∉ l := fun hm => h (List.mem_cons_of_mem _ hm)
    simp only [List.cons_append, readLine, List.append_eq]
    rw [if_neg hc, readLine_append l hl rest]

theorem rstripCRLF_eq_self (l : List Nat) (h : ∀ c ∈ l, c ≠ 13 ∧ c ≠ 10) :
    rstripCRLF l = l := by
  have hdrop : List.dropWhile (fun c => c == 13 || c == 10) l.reverse = l.reverse := by
    cases hrev : l.reverse with
    | nil => rfl
    | cons c t =>
      have hc : c ∈ l := by
        have : c ∈ l.reverse := by
          rw [hrev]
          exact List.mem_cons_self _ _
        simpa using this
      rw [List.dropWhile_cons, if_neg]
      simp only [Bool.or_eq_true, beq_iff_eq]
      have := h c hc
      tauto
  unfold rstripCRLF
  rw [hdrop, List.reverse_reverse]

theorem rstripCRLF_append_crlf (m : List Nat) (h : rstripCRLF m = m) :
    rstripCRLF (m ++ [13, 10]) = m := by
  unfold rstripCRLF at h ⊢
  have hrev : (m ++ [13, 10]).reverse = 10 :: 13 :: m.reverse := by simp
  rw [hrev]
  rw [List.dropWhile_cons, if_pos (by norm_num), List.dropWhile_cons,
    if_pos (by norm_num)]
  exact h

theorem rstripCRLF_append_lf (m : List Nat) (h : rstripCRLF m = m) :
    rstripCRLF (m ++ [10]) = m := by
  unfold rstripCRLF at h ⊢
  have hrev : (m ++ [10]).reverse = 10 :: m.reverse := by simp
  rw [hrev, List.dropWhile_cons, if_pos (by norm_num)]
  exact h

theorem intAscii_no_crlf (n : Int) : ∀ c ∈ intAscii n, c ≠ 13 ∧ c ≠ 10 := by
  intro c hc
  rcases intAscii_mem n c hc with h | h <;> omega

theorem readIntLine_intAscii (n : Int) (rest : List Nat) :
    readIntLine (intAscii n ++ 13 :: 10 :: rest) = .ok (n, rest) := by
  have h10 : 10 ∉ intAscii n ++ [13] := by
    intro hmem
    rcases List.mem_append.mp hmem with h | h
    · exact ((intAscii_no_crlf n 10 h).2) rfl
    · simp at h
  have hrl : readLine ((intAscii n ++ [13]) ++ 10 :: rest)
      = ((intAscii n ++ [13]) ++ [10], rest) := readLine_append _ h10 _
  unfold readIntLine
  rw [show intAscii n ++ 13 :: 10 :: rest = (intAscii n ++ [13]) ++ 10 :: rest by simp]
  rw [hrl]
  simp only
  rw [show (intAscii n ++ [13]) ++ [10] = intAscii n ++ [13, 10] by simp]
  rw [rstripCRLF_append_crlf _ (rstripCRLF_eq_self _ (intAscii_no_crlf n))]
  rw [pyInt_intAscii]

theorem intAscii_natCast (k : Nat) : intAscii (k : Int) = natAscii k := by
  unfold intAscii
  rw [if_neg (by omega)]
  congr 1

theorem readIntLine_natAscii (k : Nat) (rest : List Nat) :
    readIntLine (natAscii k ++ 13 :: 10 :: rest) = .ok ((k : Int), rest) := by
  rw [← intAscii_natCast]
  exact readIntLine_intAscii (k : Int) rest

/-! ## Lemmas: even/odd slices and pair lists -/

theorem zip_evens_odds_cons2 {α : Type _} (x y : α) (l : List α) :
    (evens (x :: y :: l)).zip (odds (x :: y :: l)) = (x, y) :: (evens l).zip (odds l) := rfl

theorem zip_evens_odds_take {α : Type _} : ∀ l : List α,
    (evens (l.take (2 * (l.length / 2)))).zip (odds (l.take (2 * (l.length / 2))))
      = (evens l).zip (odds l)
  | [] => by simp [evens, odds]
  | [x] => by simp [evens, odds]
  | x :: y :: l => by
      have hdiv : 2 * ((x :: y :: l).length / 2) = 2 * (l.length / 2) + 1 + 1 := by
        simp only [List.length_cons]
        omega
      rw [hdiv, List.take_succ_cons, List.take_succ_cons]
      rw [zip_evens_odds_cons2, zip_evens_odds_cons2]
      rw [zip_evens_odds_take l]

theorem zip_evens_odds_length {α : Type _} : ∀ l : List α,
    ((evens l).zip (odds l)).length = l.length / 2
  | [] => by simp [evens, odds]
  | [_] => by simp [evens, odds]
  | x :: y :: l => by
      rw [zip_evens_odds_cons2]
      simp only [List.length_cons, zip_evens_odds_length l]
      omega

theorem evens_flatPairs : ∀ kvs : List (Value × Value),
    evens (flatPairs kvs) = kvs.map Prod.fst
  | [] => rfl
  | (k, v) :: kvs => by
      rw [show flatPairs ((k, v) :: kvs) = k :: v :: flatPairs kvs from rfl]
      rw [show evens (k :: v :: flatPairs kvs) = k :: evens (flatPairs kvs) from rfl]
      rw [evens_flatPairs kvs]
      rfl

theorem zip_evens_odds_flatPairs : ∀ kvs : List (Value × Value),
    (evens (flatPairs kvs)).zip (odds (flatPairs kvs)) = kvs
  | [] => rfl
  | (k, v) :: kvs => by
      rw [show flatPairs ((k, v) :: kvs) = k :: v :: flatPairs kvs from rfl]
      rw [zip_evens_odds_cons2, zip_evens_odds_flatPairs kvs]

/-! ## Lemmas: Python dict operations -/

theorem dictLookup_insert : ∀ (d : List (Value × Value)) (k v k2 : Value),
    dictLookup (dictInsert d k v) k2 = if k2 = k then some v else dictLookup d k2
  | [], k, v, k2 => by
      simp only [dictInsert, dictLookup]
      by_cases h : k = k2
      · rw [if_pos h, if_pos h.symm]
      · rw [if_neg h, if_neg (fun hh => h hh.symm)]
  | (k1, v1) :: d, k, v, k2 => by
      simp only [dictInsert]
      by_cases h1 : k1 = k
      · subst h1
        rw [if_pos rfl]
        simp only [dictLookup]
        by_cases h2 : k1 = k2
        · rw [if_pos h2, if_pos h2.symm]
        · rw [if_neg h2, if_neg (fun hh => h2 hh.symm), if_neg h2]
      · rw [if_neg h1]
        simp only [dictLookup]
        by_cases h2 : k1 = k2
        · subst h2
          rw [if_pos rfl, if_neg h1, if_pos rfl]
        · rw [if_neg h2, dictLookup_insert d k v k2]
          by_cases h3 : k2 = k
          · rw [if_pos h3, if_pos h3]
          · rw [if_neg h3, if_neg h3, if_neg h2]

theorem dictInsert_append : ∀ (d : List (Value × Value)) (k v : Value),
    (∀ p ∈ d, p.1 ≠ k) → dictInsert d k v = d ++ [(k, v)]
  | [], _, _, _ => rfl
  | (k1, v1) :: d, k, v, h => by
      simp only [dictInsert]
      rw [if_neg (h (k1, v1) (List.mem_cons_self _ _))]
      rw [dictInsert_append d k v (fun p hp => h p (List.mem_cons_of_mem _ hp))]
      rfl

theorem dictUpdate_cons (d : List (Value × Value)) (k v : Value)
    (ps : List (Value × Value)) :
    dictUpdate d ((k, v) :: ps) = dictUpdate (dictInsert d k v) ps := rfl

theorem dictUpdate_append : ∀ (ps d : List (Value × Value)),
    (∀ p ∈ ps, p.1 ∉ d.map Prod.fst) → (ps.map Prod.fst).Nodup →
    dictUpdate d ps = d ++ ps
  | [], d, _, _ => by simp [dictUpdate]
  | (k, v) :: ps, d, hdisj, hnd => by
      simp only [List.map_cons, List.nodup_cons] at hnd
      rw [dictUpdate_cons]
      rw [dictInsert_append d k v (by
        intro p hp hpk
        apply hdisj (k, v) (List.mem_cons_self _ _)
        have hm : p.1 ∈ d.map Prod.fst := List.mem_map_of_mem Prod.fst hp
        rwa [hpk] at hm)]
      rw [dictUpdate_append ps (d ++ [(k, v)]) (by
        intro p hp
        simp only [List.map_append, List.mem_append, List.map_cons,
          List.map_nil, List.mem_singleton]
        rintro (hmem | hmem)
        · exact hdisj p (List.mem_cons_of_mem _ hp) hmem
        · exact hnd.1 (hmem ▸ List.mem_map_of_mem Prod.fst hp)) hnd.2]
      simp

theorem pyDict_eq_self (kvs : List (Value × Value))
    (h : (kvs.map Prod.fst).Nodup) : pyDict kvs = kvs := by
  unfold pyDict
  rw [dictUpdate_append kvs [] (by simp) h]
  simp

theorem nodupKeys_iff : ∀ ks : List Value, nodupKeys ks = true ↔ ks.Nodup
  | [] => by simp [nodupKeys]
  | k :: ks => by
      simp [nodupKeys, nodupKeys_iff ks, List.nodup_cons]

theorem dictUpdate_lookup_not_mem : ∀ (ps d : List (Value × Value)) (k : Value),
    k ∉ ps.map Prod.fst → dictLookup (dictUpdate d ps) k = dictLookup d k
  | [], _, _, _ => rfl
  | (k0, v0) :: ps, d, k, h => by
      have hk : ¬(k = k0) := by
        intro hh
        exact h (by simp [hh])
      have ht : k ∉ ps.map Prod.fst := by
        intro hh
        exact h (by simp [hh])
      rw [dictUpdate_cons, dictUpdate_lookup_not_mem ps _ k ht]
      rw [dictLookup_insert, if_neg hk]

theorem dictUpdate_lookup_mem : ∀ (ps d : List (Value × Value)) (k : Value),
    (ps.map Prod.fst).Nodup → k ∈ ps.map Prod.fst →
    dictLookup (dictUpdate d ps) k = dictLookup ps k
  | [], _, k, _, h => by simp at h
  | (k0, v0) :: ps, d, k, hnd, hmem => by
      simp only [List.map_cons, List.nodup_cons] at hnd
      rw [dictUpdate_cons]
      by_cases hk : k = k0
      · subst hk
        rw [dictUpdate_lookup_not_mem ps _ k hnd.1]
        rw [dictLookup_insert, if_pos rfl]
        simp [dictLookup]
      · have hmem2 : k ∈ ps.map Prod.fst := by
          simp only [List.map_cons, List.mem_cons] at hmem
          tauto
        rw [dictUpdate_lookup_mem ps _ k hnd.2 hmem2]
        simp only [dictLookup]
        rw [if_neg (fun hh : k0 = k => hk hh.symm)]

theorem dictLookup_of_mem_nodup : ∀ (ps : List (Value × Value)) (k v : Value),
    (ps.map Prod.fst).Nodup → (k, v) ∈ ps → dictLookup ps k = some v
  | [], k, v, _, h => by simp at h
  | (k0, v0) :: ps, k, v, hnd, hmem => by
      simp only [List.map_cons, List.nodup_cons] at hnd
      simp only [List.mem_cons] at hmem
      rcases hmem with h | h
      · obtain ⟨hk, hv⟩ := Prod.mk.injEq .. ▸ h
        subst hk
        subst hv
        simp [dictLookup]
      · have hk : ¬(k0 = k) := by
          intro hh
          exact hnd.1 (hh ▸ List.mem_map_of_mem Prod.fst h)
        simp only [dictLookup]
        rw [if_neg hk]
        exact dictLookup_of_mem_nodup ps k v hnd.2 h

/-! ## Lemmas: the mget/mset loops -/

theorem msetLoop_ok : ∀ (ps d : List (Value × Value)),
    (∀ p ∈ ps, hashable p.1 = true) →
    Server.msetLoop d ps = .ok (dictUpdate d ps)
  | [], d, _ => rfl
  | (k, v) :: ps, d, h => by
      simp only [Server.msetLoop]
      rw [if_pos (h (k, v) (List.mem_cons_self _ _))]
      rw [msetLoop_ok ps _ (fun p hp => h p (List.mem_cons_of_mem _ hp))]
      rfl

/-! ## Lemmas: one decoding step per tag byte -/

theorem handleRequest_succ (f : Nat) (s : List Nat) :
    handleRequest (f + 1) s = handleStep (handleRequest f) s := rfl

theorem handleStep_simple (next : List Nat → Except PyExc (Value × List Nat))
    (s1 line rest : List Nat) (h : readLine s1 = (line, rest)) :
    handleStep next (43 :: s1) = .ok (.bytes (rstripCRLF line), rest) := by
  have heq : handleStep next (43 :: s1)
      = .ok (.bytes (rstripCRLF (readLine s1).1), (readLine s1).2) := rfl
  rw [heq, h]

theorem handleStep_err (next : List Nat → Except PyExc (Value × List Nat))
    (s1 line rest : List Nat) (h : readLine s1 = (line, rest)) :
    handleStep next (45 :: s1) = .ok (.err (rstripCRLF line), rest) := by
  have heq : handleStep next (45 :: s1)
      = .ok (.err (rstripCRLF (readLine s1).1), (readLine s1).2) := rfl
  rw [heq, h]

theorem handleStep_int (next : List Nat → Except PyExc (Value × List Nat))
    (n : Int) (s1 rest : List Nat) (h : readIntLine s1 = .ok (n, rest)) :
    handleStep next (58 :: s1) = .ok (.int n, rest) := by
  have heq : handleStep next (58 :: s1)
      = (match readIntLine s1 with
         | .error e => .error e
         | .ok (n, rest) => .ok (.int n, rest)) := rfl
  rw [heq]
  simp only [h]

theorem handleStep_bulk (next : List Nat → Except PyExc (Value × List Nat))
    (n : Int) (s1 rest : List Nat) (h : readIntLine s1 = .ok (n, rest)) :
    handleStep next (36 :: s1)
      = if n = -1 then .ok (.null, rest)
        else if n + 2 = -1 then .ok (.bytes (stripLast2 rest), [])
        else if n + 2 < 0 then .error .valueError
        else .ok (.bytes (stripLast2 (rest.take (n + 2).toNat)),
                  rest.drop (n + 2).toNat) := by
  have heq : handleStep next (36 :: s1)
      = (match readIntLine s1 with
         | .error e => .error e
         | .ok (n, rest) =>
           if n = -1 then .ok (.null, rest)
           else if n + 2 = -1 then .ok (.bytes (stripLast2 rest), [])
           else if n + 2 < 0 then .error .valueError
           else .ok (.bytes (stripLast2 (rest.take (n + 2).toNat)),
                     rest.drop (n + 2).toNat)) := rfl
  rw [heq]
  simp only [h]

theorem handleStep_array (next : List Nat → Except PyExc (Value × List Nat))
    (n : Int) (s1 rest : List Nat) (h : readIntLine s1 = .ok (n, rest)) :
    handleStep next (42 :: s1)
      = match readManyWith next n.toNat rest with
        | .error e => .error e
        | .ok (vs, rest2) => .ok (.array vs, rest2) := by
  have heq : handleStep next (42 :: s1)
      = (match readIntLine s1 with
         | .error e => .error e
         | .ok (n, rest) =>
           match readManyWith next n.toNat rest with
           | .error e => .error e
           | .ok (vs, rest2) => .ok (.array vs, rest2)) := rfl
  rw [heq]
  simp only [h]

theorem handleStep_dict (next : List Nat → Except PyExc (Value × List Nat))
    (n : Int) (s1 rest : List Nat) (h : readIntLine s1 = .ok (n, rest)) :
    handleStep next (37 :: s1)
      = match readManyWith next (n.toNat * 2) rest with
        | .error e => .error e
        | .ok (vs, rest2) =>
          if (evens vs).all hashable then
            .ok (.dict (pyDict ((evens vs).zip (odds vs))), rest2)
          else .error .typeError := by
  have heq : handleStep next (37 :: s1)
      = (match readIntLine s1 with
         | .error e => .error e
         | .ok (n, rest) =>
           match readManyWith next (n.toNat * 2) rest with
           | .error e => .error e
           | .ok (vs, rest2) =>
             if (evens vs).all hashable then
               .ok (.dict (pyDict ((evens vs).zip (odds vs))), rest2)
             else .error .typeError) := rfl
  rw [heq]
  simp only [h]

theorem handleStep_unknownTag (next : List Nat → Except PyExc (Value × List Nat))
    (c : Nat) (s1 line rest : List Nat) (h : readLine s1 = (line, rest))
    (h43 : c ≠ 43) (h45 : c ≠ 45) (h58 : c ≠ 58) (h36 : c ≠ 36)
    (h42 : c ≠ 42) (h37 : c ≠ 37) :
    handleStep next (c :: s1) = .ok (.bytes (c :: rstripCRLF line), rest) := by
  simp only [handleStep, if_neg h43, if_neg h45, if_neg h58, if_neg h36,
    if_neg h42, if_neg h37, h]

theorem mgetLoop_ok : ∀ (ks : List Value) (d : List (Value × Value)),
    (∀ k ∈ ks, hashable k = true) →
    Server.mgetLoop d ks = .ok (ks.map fun k => (dictLookup d k).getD .null)
  | [], _, _ => rfl
  | k :: ks, d, h => by
      simp only [Server.mgetLoop]
      rw [if_pos (h k (List.mem_cons_self _ _))]
      rw [mgetLoop_ok ks d (fun x hx => h x (List.mem_cons_of_mem _ hx))]
      simp

/-! ## The decode-encode round trip -/

mutual
theorem hr_encV : ∀ v : Value, wf v = true → ∀ (fuel : Nat) (rest : List Nat),
    (encV v ++ rest).length < fuel →
    handleRequest fuel (encV v ++ rest) = .ok (v, rest)
  | .bytes b, _, fuel, rest, hf => by
      obtain ⟨f, rfl⟩ : ∃ f, fuel = f + 1 := ⟨fuel - 1, by omega⟩
      rw [handleRequest_succ]
      rw [show encV (.bytes b) ++ rest
            = 36 :: (natAscii b.length ++ 13 :: 10 :: (b ++ [13, 10] ++ rest)) by
          simp [encV]]
      rw [handleStep_bulk _ _ _ _ (readIntLine_natAscii b.length (b ++ [13, 10] ++ rest))]
      rw [if_neg (by omega : ¬((b.length : Int) = -1))]
      rw [if_neg (by omega : ¬((b.length : Int) + 2 = -1))]
      rw [if_neg (by omega : ¬((b.length : Int) + 2 < 0))]
      rw [show ((b.length : Int) + 2).toNat = (b ++ [13, 10]).length by simp; omega]
      rw [show b ++ [13, 10] ++ rest = (b ++ [13, 10]) ++ rest by simp]
      rw [List.take_left, List.drop_left]
      rw [show stripLast2 (b ++ [13, 10]) = b by
        unfold stripLast2
        simp]
  | .int n, _, fuel, rest, hf => by
      obtain ⟨f, rfl⟩ : ∃ f, fuel = f + 1 := ⟨fuel - 1, by omega⟩
      rw [handleRequest_succ]
      rw [show encV (.int n) ++ rest = 58 :: (intAscii n ++ 13 :: 10 :: rest) by
        simp [encV]]
      rw [handleStep_int _ _ _ _ (readIntLine_intAscii n rest)]
  | .bool b, hwf, _, _, _ => by simp [wf] at hwf
  | .float q, hwf, _, _, _ => by simp [wf] at hwf
  | .err m, hwf, fuel, rest, hf => by
      obtain ⟨f, rfl⟩ : ∃ f, fuel = f + 1 := ⟨fuel - 1, by omega⟩
      have h10 : (10 : Nat) ∉ m := by
        simp only [wf, Bool.and_eq_true, decide_eq_true_eq] at hwf
        exact hwf.1.2
      have hfix : rstripCRLF m = m := by
        simp only [wf, Bool.and_eq_true, decide_eq_true_eq] at hwf
        exact hwf.2
      have h10' : (10 : Nat) ∉ m ++ [13] := by
        intro hmem
        rcases List.mem_append.mp hmem with h | h
        · exact h10 h
        · simp at h
      rw [handleRequest_succ]
      rw [show encV (.err m) ++ rest = 45 :: ((m ++ [13]) ++ 10 :: rest) by
        simp [encV]]
      rw [handleStep_err _ _ _ _ (readLine_append (m ++ [13]) h10' rest)]
      rw [show (m ++ [13]) ++ [10] = m ++ [13, 10] by simp]
      rw [rstripCRLF_append_crlf m hfix]
  | .array xs, hwf, fuel, rest, hf => by
      obtain ⟨f, rfl⟩ : ∃ f, fuel = f + 1 := ⟨fuel - 1, by omega⟩
      have hwf2 : wfList xs = true := by simpa [wf] using hwf
      have hfuel : (encList xs ++ rest).length < f := by
        have h1 : 1 ≤ (natAscii xs.length).length :=
          List.length_pos.mpr (natAscii_ne_nil _)
        rw [show encV (.array xs) = 42 :: (natAscii xs.length ++ 13 :: 10 :: encList xs)
            by simp [encV]] at hf
        simp only [List.length_append, List.length_cons] at hf ⊢
        omega
      rw [handleRequest_succ]
      rw [show encV (.array xs) ++ rest
            = 42 :: (natAscii xs.length ++ 13 :: 10 :: (encList xs ++ rest)) by
          simp [encV]]
      rw [handleStep_array _ _ _ _ (readIntLine_natAscii xs.length (encList xs ++ rest))]
      rw [show ((xs.length : Int)).toNat = xs.length by omega]
      simp only [rm_encList xs hwf2 f rest hfuel]
  | .dict kvs, hwf, fuel, rest, hf => by
      obtain ⟨f, rfl⟩ : ∃ f, fuel = f + 1 := ⟨fuel - 1, by omega⟩
      have hwfp : wfPairs kvs = true := by
        simp only [wf, Bool.and_eq_true] at hwf
        exact hwf.1.1
      have hall : (kvs.map Prod.fst).all hashable = true := by
        simp only [wf, Bool.and_eq_true] at hwf
        exact hwf.1.2
      have hnd : (kvs.map Prod.fst).Nodup := by
        simp only [wf, Bool.and_eq_true] at hwf
        exact (nodupKeys_iff _).mp hwf.2
      have hfuel : (encPairs kvs ++ rest).length < f := by
        have h1 : 1 ≤ (natAscii kvs.length).length :=
          List.length_pos.mpr (natAscii_ne_nil _)
        rw [show encV (.dict kvs) = 37 :: (natAscii kvs.length ++ 13 :: 10 :: encPairs kvs)
            by simp [encV]] at hf
        simp only [List.length_append, List.length_cons] at hf ⊢
        omega
      rw [handleRequest_succ]
      rw [show encV (.dict kvs) ++ rest
            = 37 :: (natAscii kvs.length ++ 13 :: 10 :: (encPairs kvs ++ rest)) by
          simp [encV]]
      rw [handleStep_dict _ _ _ _ (readIntLine_natAscii kvs.length (encPairs kvs ++ rest))]
      rw [show ((kvs.length : Int)).toNat = kvs.length by omega]
      simp only [rm_encPairs kvs hwfp f rest hfuel]
      rw [zip_evens_odds_flatPairs kvs, evens_flatPairs kvs]
      rw [if_pos hall, pyDict_eq_self kvs hnd]
  | .null, _, fuel, rest, hf => by
      obtain ⟨f, rfl⟩ : ∃ f, fuel = f + 1 := ⟨fuel - 1, by omega⟩
      rw [handleRequest_succ]
      rw [show encV .null ++ rest = 36 :: (intAscii (-1) ++ 13 :: 10 :: rest) by
        rw [show intAscii (-1) = [45, 49] by decide]
        rfl]
      rw [handleStep_bulk _ _ _ _ (readIntLine_intAscii (-1) rest)]
      rw [if_pos rfl]

theorem rm_encList : ∀ xs : List Value, wfList xs = true →
    ∀ (fuel : Nat) (rest : List Nat),
    (encList xs ++ rest).length < fuel →
    readManyWith (handleRequest fuel) xs.length (encList xs ++ rest) = .ok (xs, rest)
  | [], _, fuel, rest, _ => by simp [encList, readManyWith]
  | x :: xs, hwf, fuel, rest, hf => by
      have hx : wf x = true := by
        simp only [wfList, Bool.and_eq_true] at hwf
        exact hwf.1
      have hxs : wfList xs = true := by
        simp only [wfList, Bool.and_eq_true] at hwf
        exact hwf.2
      rw [show encList (x :: xs) = encV x ++ encList xs by simp [encList]] at hf
      rw [show encList (x :: xs) = encV x ++ encList xs by simp [encList],
        List.append_assoc]
      rw [show (x :: xs).length = xs.length + 1 from rfl]
      have hf1 : (encV x ++ (encList xs ++ rest)).length < fuel := by
        simp only [List.length_append] at hf ⊢
        omega
      have hf2 : (encList xs ++ rest).length < fuel := by
        simp only [List.length_append] at hf ⊢
        omega
      simp only [readManyWith, hr_encV x hx fuel (encList xs ++ rest) hf1,
        rm_encList xs hxs fuel rest hf2]

theorem rm_encPairs : ∀ kvs : List (Value × Value), wfPairs kvs = true →
    ∀ (fuel : Nat) (rest : List Nat),
    (encPairs kvs ++ rest).length < fuel →
    readManyWith (handleRequest fuel) (kvs.length * 2) (encPairs kvs ++ rest)
      = .ok (flatPairs kvs, rest)
  | [], _, fuel, rest, _ => by simp [encPairs, readManyWith, flatPairs]
  | (k, v) :: kvs, hwf, fuel, rest, hf => by
      have hk : wf k = true := by
        simp only [wfPairs, Bool.and_eq_true] at hwf
        exact hwf.1.1
      have hv : wf v = true := by
        simp only [wfPairs, Bool.and_eq_true] at hwf
        exact hwf.1.2
      have hkvs : wfPairs kvs = true := by
        simp only [wfPairs, Bool.and_eq_true] at hwf
        exact hwf.2
      rw [show encPairs ((k, v) :: kvs) = encV k ++ (encV v ++ encPairs kvs) by
        simp [encPairs]] at hf
      rw [show encPairs ((k, v) :: kvs) = encV k ++ (encV v ++ encPairs kvs) by
        simp [encPairs]]
      rw [List.append_assoc, List.append_assoc]
      rw [show ((k, v) :: kvs).length * 2 = kvs.length * 2 + 1 + 1 by
        simp only [List.length_cons]
        ring]
      have hf1 : (encV k ++ (encV v ++ (encPairs kvs ++ rest))).length < fuel := by
        simp only [List.length_append] at hf ⊢
        omega
      have hf2 : (encV v ++ (encPairs kvs ++ rest)).length < fuel := by
        simp only [List.length_append] at hf ⊢
        omega
      have hf3 : (encPairs kvs ++ rest).length < fuel := by
        simp only [List.length_append] at hf ⊢
        omega
      simp only [readManyWith, hr_encV k hk fuel _ hf1, hr_encV v hv fuel _ hf2,
        rm_encPairs kvs hkvs fuel rest hf3]
      simp [flatPairs]
end

/-- decode inverts encV on well-formed values, consuming the whole stream. -/
theorem decode_encV (v : Value) (h : wf v = true) : decode (encV v) = .ok (v, []) := by
  unfold decode
  have := hr_encV v h ((encV v).length + 1) [] (by simp)
  simpa using this


/-! ## Concrete fixtures for counterexamples and witnesses -/

/-- The byte string b"FOO", an unregistered command name. -/
def bFOO : List Nat := [70, 79, 79]

/-- The byte string b"k" as a Value. -/
def keyK : Value := .bytes [107]

/-- The byte string b"j" as a Value. -/
def keyJ : Value := .bytes [106]

/-- The byte string b"p" as a Value, used as a snapshot path. -/
def pathP : Value := .bytes [112]

/-- A store holding the single local entry k = 1. -/
def stLocal : ServerState := ⟨[(keyK, .int 1)], []⟩

/-- The empty store. -/
def stEmpty : ServerState := ⟨[], []⟩

/-- A snapshot with k = 2 and j = 9 and a nonempty schedule. -/
def snapC1 : ServerState := ⟨[(keyK, .int 2), (keyJ, .int 9)], [.int 7]⟩

/-- A filesystem with the snapC1 snapshot at path p. -/
def fsC1 : FS := fun f => if f = pathP then .found snapC1 else .absent

/-- A snapshot with only j = 9. -/
def snapC9 : ServerState := ⟨[(keyJ, .int 9)], [.int 5]⟩

/-- A filesystem with the snapC9 snapshot at path p. -/
def fsC9 : FS := fun f => if f = pathP then .found snapC9 else .absent

/-- A filesystem with an undeserializable file at path p. -/
def fsC7 : FS := fun f => if f = pathP then .corrupt else .absent

/-- An empty filesystem. -/
def fsNone : FS := fun _ => .absent

/-- A wire value of nesting depth three (dict holding arrays holding a dict). -/
def vDeep : Value :=
  .dict [(.bytes [97], .array [.int (-5), .dict [(.int 2, .null)], .bytes []]),
         (.err [111, 111, 112, 115], .array [.array [.bytes [120, 13, 121]]])]

/-- The MSET argument list a 1 b 2 c with a trailing unpaired key c. -/
def itemsC6 : List Value :=
  [.bytes [97], .int 1, .bytes [98], .int 2, .bytes [99]]

/-- The rational 5/2, in lowest terms, as a float witness. -/
def qC10 : Rat := ⟨5, 2, by norm_num, by norm_num [Nat.Coprime]⟩

/-! ## The claims -/

/-- C1, counterexample.  The claim says MERGE sets a key present in both the
local keyspace and the snapshot to the SNAPSHOT value.  With local k = 1 and
snapshot k = 2, j = 9, merge_from_disk yields k = 1: state[kv].update(self._kv)
lets the LOCAL value win, so the claimed result k = 2 is wrong. -/
theorem C1_counterexample :
    Server.merge_from_disk fsC1 stLocal pathP
      = .ok (.bool true, ⟨[(keyK, .int 1), (keyJ, .int 9)], [.int 7]⟩)
    ∧ dictLookup [(keyK, .int 1), (keyJ, .int 9)] keyK = some (.int 1)
    ∧ some (Value.int 1) ≠ some (Value.int 2) := by
  refine ⟨by decide, by decide, by decide⟩

/-- C1, amended.  Executing MERGE with a path whose file holds a snapshot
keeps the LOCAL value for every key present in both keyspaces, keeps every
local-only key, adds every key present only in the loaded map, and replaces
the schedule wholesale with the loaded schedule. -/
theorem C1_merge_local_wins (fs : FS) (st loaded : ServerState) (p : Value)
    (hfs : fs p = .found loaded) (hnd : (st.kv.map Prod.fst).Nodup) :
    Server.get_response fs st (.array [.bytes Server.bMERGE, p])
      = Server.merge_from_disk fs st p
    ∧ Server.merge_from_disk fs st p
      = .ok (.bool true, ⟨dictUpdate loaded.kv st.kv, loaded.schedule⟩)
    ∧ (∀ k, k ∈ st.kv.map Prod.fst →
        dictLookup (dictUpdate loaded.kv st.kv) k = dictLookup st.kv k)
    ∧ (∀ k, k ∉ st.kv.map Prod.fst →
        dictLookup (dictUpdate loaded.kv st.kv) k = dictLookup loaded.kv k) := by
  refine ⟨rfl, ?_, ?_, ?_⟩
  · unfold Server.merge_from_disk Server.restore_from_disk
    rw [hfs]
    rfl
  · intro k hk
    exact dictUpdate_lookup_mem st.kv loaded.kv k hnd hk
  · intro k hk
    exact dictUpdate_lookup_not_mem st.kv loaded.kv k hk

/-- C1, witness: the amended theorem applied to the concrete merge setup. -/
theorem C1_merge_local_wins_witness :
    Server.merge_from_disk fsC1 stLocal pathP
      = .ok (.bool true, ⟨dictUpdate snapC1.kv stLocal.kv, snapC1.schedule⟩) :=
  (C1_merge_local_wins fsC1 stLocal snapC1 pathP (by decide) (by decide)).2.1

/-- C2, confirmed.  For every Value expressible by the wire grammar (bytes,
integers, errors, arrays, dicts, null - captured by the well-formedness
predicate wf), decoding the bytes produced by encoding the value yields the
value again with nothing left over, at any nesting depth. -/
theorem C2_decode_encode_roundtrip (v : Value) (h : wf v = true) :
    decode (encV v) = .ok (v, []) :=
  decode_encV v h

/-- C2, witness: the round trip evaluated on a depth-three nested value. -/
theorem C2_decode_encode_roundtrip_witness :
    wf vDeep = true ∧ decode (encV vDeep) = .ok (vDeep, []) :=
  ⟨by decide, C2_decode_encode_roundtrip vDeep (by decide)⟩

/-- C3, counterexample.  The claim says a bulk-string frame declaring length
-2 raises a ProtocolError.  In fact decoding the five-byte stream 36 45 50 13 10 returns
the empty byte string: length becomes 0 after the += 2 and read(0)[:-2] is
empty.  No exception type resembling ProtocolError even exists in the code. -/
theorem C3_counterexample :
    decode [36, 45, 50, 13, 10] = .ok (.bytes [], []) := by decide

/-- C3, amended.  Decoding a bulk-string frame that declares length -2
always succeeds and returns the empty byte string, consuming no payload
bytes; it neither raises nor returns Null. -/
theorem C3_bulk_len_neg2 (fuel : Nat) (rest : List Nat) :
    handleRequest (fuel + 1) ([36, 45, 50, 13, 10] ++ rest)
      = .ok (.bytes [], rest) := by
  rw [handleRequest_succ]
  rw [show ([36, 45, 50, 13, 10] : List Nat) ++ rest
        = 36 :: (intAscii (-2) ++ 13 :: 10 :: rest) by
      rw [show intAscii (-2) = [45, 50] by decide]
      rfl]
  rw [handleStep_bulk _ _ _ _ (readIntLine_intAscii (-2) rest)]
  rw [if_neg (by norm_num : ¬((-2 : Int) = -1))]
  rw [if_neg (by norm_num : ¬((-2 : Int) + 2 = -1))]
  rw [if_neg (by norm_num : ¬((-2 : Int) + 2 < 0))]
  rw [show ((-2 : Int) + 2).toNat = 0 by norm_num]
  simp [stripLast2]

/-- C4, code_bug.  Dispatching an unregistered command (or an empty request)
does raise CommandError as claimed, but the connection loop then evaluates
Error(exc.args[0]) while CommandError.__init__ never forwarded the message
to Exception, so exc.args is empty and the IndexError kills the handler:
no Error Value is sent and the connection does not stay open. -/
theorem C4_unknown_command_crash :
    Server.get_response fsNone stEmpty (.array [.bytes bFOO])
      = .error (.commandError ⟨.unrecognizedCommand bFOO, []⟩)
    ∧ Server.connection_step fsNone stEmpty (.array [.bytes bFOO])
      = .crashed .indexError stEmpty
    ∧ Server.get_response fsNone stEmpty (.array [])
      = .error (.commandError ⟨.missingCommand, []⟩)
    ∧ Server.connection_step fsNone stEmpty (.array [])
      = .crashed .indexError stEmpty := by
  refine ⟨by decide, by decide, by decide, by decide⟩

/-- C5, counterexample.  The claim says a registered command invoked with
the wrong number of arguments is rejected with a CommandError surfaced as
an Error Value.  GET with zero arguments in fact raises TypeError (the
Python call fails, no handler checks arity), which is not caught: the
handler crashes and nothing is sent. -/
theorem C5_counterexample :
    Server.get_response fsNone stEmpty (.array [.bytes Server.bGET])
      = .error .typeError
    ∧ Server.connection_step fsNone stEmpty (.array [.bytes Server.bGET])
      = .crashed .typeError stEmpty := by
  refine ⟨by decide, by decide⟩

/-- C5, amended.  A registered command invoked with the wrong number of
arguments (GET without exactly one, SET without exactly two, FLUSH with
any) raises TypeError from the call, not CommandError; the uncaught
TypeError terminates the connection handler and no Error Value is sent. -/
theorem C5_wrong_arity_typeError (fs : FS) (st : ServerState)
    (gargs sargs fargs : List Value)
    (hg : gargs.length ≠ 1) (hs : sargs.length ≠ 2) (hfl : fargs ≠ []) :
    (Server.get_response fs st (.array (.bytes Server.bGET :: gargs))
        = .error .typeError
      ∧ Server.connection_step fs st (.array (.bytes Server.bGET :: gargs))
        = .crashed .typeError st)
    ∧ (Server.get_response fs st (.array (.bytes Server.bSET :: sargs))
        = .error .typeError
      ∧ Server.connection_step fs st (.array (.bytes Server.bSET :: sargs))
        = .crashed .typeError st)
    ∧ (Server.get_response fs st (.array (.bytes Server.bFLUSH :: fargs))
        = .error .typeError
      ∧ Server.connection_step fs st (.array (.bytes Server.bFLUSH :: fargs))
        = .crashed .typeError st) := by
  have hGET : Server.get_response fs st (.array (.bytes Server.bGET :: gargs))
      = .error .typeError := by
    show Server.execCommand fs st (upperBytes Server.bGET) gargs = .error .typeError
    rw [show upperBytes Server.bGET = Server.bGET by decide]
    cases gargs with
    | nil => rfl
    | cons a t =>
      cases t with
      | nil => exact absurd (by simp : ([a] : List Value).length = 1) hg
      | cons b t2 => rfl
  have hSET : Server.get_response fs st (.array (.bytes Server.bSET :: sargs))
      = .error .typeError := by
    show Server.execCommand fs st (upperBytes Server.bSET) sargs = .error .typeError
    rw [show upperBytes Server.bSET = Server.bSET by decide]
    cases sargs with
    | nil => rfl
    | cons a t =>
      cases t with
      | nil => rfl
      | cons b t2 =>
        cases t2 with
        | nil => exact absurd (by simp : ([a, b] : List Value).length = 2) hs
        | cons d t3 => rfl
  have hFLUSH : Server.get_response fs st (.array (.bytes Server.bFLUSH :: fargs))
      = .error .typeError := by
    show Server.execCommand fs st (upperBytes Server.bFLUSH) fargs = .error .typeError
    rw [show upperBytes Server.bFLUSH = Server.bFLUSH by decide]
    cases fargs with
    | nil => exact absurd rfl hfl
    | cons a t => rfl
  refine ⟨⟨hGET, ?_⟩, ⟨hSET, ?_⟩, ⟨hFLUSH, ?_⟩⟩ <;>
    simp only [Server.connection_step, hGET, hSET, hFLUSH]

/-- C5, witness: GET with zero, SET with zero, FLUSH with one argument. -/
theorem C5_wrong_arity_typeError_witness :
    (Server.get_response fsNone stEmpty (.array (.bytes Server.bGET :: []))
        = .error .typeError
      ∧ Server.connection_step fsNone stEmpty (.array (.bytes Server.bGET :: []))
        = .crashed .typeError stEmpty)
    ∧ (Server.get_response fsNone stEmpty (.array (.bytes Server.bSET :: []))
        = .error .typeError
      ∧ Server.connection_step fsNone stEmpty (.array (.bytes Server.bSET :: []))
        = .crashed .typeError stEmpty)
    ∧ (Server.get_response fsNone stEmpty (.array (.bytes Server.bFLUSH :: [.null]))
        = .error .typeError
      ∧ Server.connection_step fsNone stEmpty (.array (.bytes Server.bFLUSH :: [.null]))
        = .crashed .typeError stEmpty) :=
  C5_wrong_arity_typeError fsNone stEmpty [] [] [.null]
    (by decide) (by decide) (by decide)

/-- C6, confirmed.  MSET pairs keys at even positions with the following odd
positions, drops a trailing unpaired key, returns the number of complete
pairs, and a subsequent MGET of the stored keys returns exactly the stored
values, with Null for any absent key. -/
theorem C6_mset_mget (st : ServerState) (items : List Value)
    (hkeys : ∀ p ∈ (evens items).zip (odds items), hashable p.1 = true) :
    Server.mset st items
      = .ok (.int ((items.length / 2 : Nat) : Int),
             { st with kv := dictUpdate st.kv ((evens items).zip (odds items)) })
    ∧ Server.mset st items = Server.mset st (items.take (2 * (items.length / 2)))
    ∧ ((((evens items).zip (odds items)).map Prod.fst).Nodup →
        Server.mget { st with kv := dictUpdate st.kv ((evens items).zip (odds items)) }
            (((evens items).zip (odds items)).map Prod.fst)
          = .ok (.array (((evens items).zip (odds items)).map Prod.snd),
                 { st with kv := dictUpdate st.kv ((evens items).zip (odds items)) }))
    ∧ (∀ k, hashable k = true →
        dictLookup (dictUpdate st.kv ((evens items).zip (odds items))) k = none →
        Server.mget { st with kv := dictUpdate st.kv ((evens items).zip (odds items)) }
            [k]
          = .ok (.array [.null],
                 { st with kv := dictUpdate st.kv ((evens items).zip (odds items)) })) := by
  refine ⟨?_, ?_, ?_, ?_⟩
  · unfold Server.mset
    simp only [msetLoop_ok ((evens items).zip (odds items)) st.kv hkeys,
      zip_evens_odds_length]
  · unfold Server.mset
    rw [zip_evens_odds_take items]
  · intro hnd
    unfold Server.mget
    rw [mgetLoop_ok (((evens items).zip (odds items)).map Prod.fst) _ (by
      intro k hk
      rcases List.mem_map.mp hk with ⟨p, hp, rfl⟩
      exact hkeys p hp)]
    simp only [List.map_map]
    rw [List.map_congr_left (fun p hp => by
      show (dictLookup (dictUpdate st.kv ((evens items).zip (odds items))) p.1).getD .null
          = p.2
      rw [dictUpdate_lookup_mem _ _ _ hnd (List.mem_map_of_mem Prod.fst hp)]
      rw [dictLookup_of_mem_nodup _ p.1 p.2 hnd (Prod.mk.eta.symm ▸ hp)]
      rfl)]
  · intro k hhash hnone
    unfold Server.mget
    rw [mgetLoop_ok [k] _ (by
      intro x hx
      rcases List.mem_singleton.mp hx with rfl
      exact hhash)]
    rw [show ([k].map fun k2 =>
          (dictLookup (dictUpdate st.kv ((evens items).zip (odds items))) k2).getD .null)
        = [(dictLookup (dictUpdate st.kv ((evens items).zip (odds items))) k).getD .null]
      from rfl]
    rw [hnone]
    rfl

/-- C6, witness: MSET a 1 b 2 c (trailing c dropped, two pairs stored). -/
theorem C6_mset_mget_witness :
    (∀ p ∈ (evens itemsC6).zip (odds itemsC6), hashable p.1 = true)
    ∧ (Server.mset stEmpty itemsC6
        = .ok (.int ((itemsC6.length / 2 : Nat) : Int),
               { stEmpty with
                 kv := dictUpdate stEmpty.kv ((evens itemsC6).zip (odds itemsC6)) })
      ∧ Server.mset stEmpty itemsC6
        = Server.mset stEmpty (itemsC6.take (2 * (itemsC6.length / 2)))
      ∧ ((((evens itemsC6).zip (odds itemsC6)).map Prod.fst).Nodup →
          Server.mget
              { stEmpty with
                kv := dictUpdate stEmpty.kv ((evens itemsC6).zip (odds itemsC6)) }
              (((evens itemsC6).zip (odds itemsC6)).map Prod.fst)
            = .ok (.array (((evens itemsC6).zip (odds itemsC6)).map Prod.snd),
                   { stEmpty with
                     kv := dictUpdate stEmpty.kv ((evens itemsC6).zip (odds itemsC6)) }))
      ∧ (∀ k, hashable k = true →
          dictLookup (dictUpdate stEmpty.kv ((evens itemsC6).zip (odds itemsC6))) k
            = none →
          Server.mget
              { stEmpty with
                kv := dictUpdate stEmpty.kv ((evens itemsC6).zip (odds itemsC6)) }
              [k]
            = .ok (.array [.null],
                   { stEmpty with
                     kv := dictUpdate stEmpty.kv
                       ((evens itemsC6).zip (odds itemsC6)) }))) :=
  ⟨by decide, C6_mset_mget stEmpty itemsC6 (by decide)⟩

/-- C7, counterexample.  The claim says a file that exists but fails to
deserialize raises a CommandError.  It in fact raises the unpickling error
of pickle.load, which restore_from_disk does not catch or convert;
CommandError never enters this path. -/
theorem C7_counterexample :
    Server.restore_from_disk fsC7 stLocal pathP (.bool false)
      = .error .unpicklingError := by decide

/-- C7, amended.  Snapshot restore returns False and leaves the store
unchanged when no file exists at the path, and propagates the raw
deserialization exception of pickle.load (not a CommandError) when the file
exists but cannot be deserialized; the two outcomes remain distinct. -/
theorem C7_restore_distinguishes (fs : FS) (st : ServerState) (p m : Value) :
    (fs p = .absent → Server.restore_from_disk fs st p m = .ok (.bool false, st))
    ∧ (fs p = .corrupt →
        Server.restore_from_disk fs st p m = .error .unpicklingError) := by
  constructor
  · intro h
    unfold Server.restore_from_disk
    rw [h]
  · intro h
    unfold Server.restore_from_disk
    rw [h]

/-- C7, witness: an absent path returns False with the store intact, and an
undeserializable file raises the unpickling error. -/
theorem C7_restore_distinguishes_witness :
    Server.restore_from_disk fsNone stLocal pathP (.bool false)
      = .ok (.bool false, stLocal)
    ∧ Server.restore_from_disk fsC7 stLocal pathP (.bool false)
      = .error .unpicklingError :=
  ⟨(C7_restore_distinguishes fsNone stLocal pathP (.bool false)).1 (by decide),
   (C7_restore_distinguishes fsC7 stLocal pathP (.bool false)).2 (by decide)⟩

/-- C8, confirmed.  A stream whose first byte at a request boundary is not
one of the six recognized tags decodes without failing: the result is the
first byte concatenated with the remainder of the line, stripped of the
trailing CRLF, as a literal byte-string value. -/
theorem C8_unknown_tag (c : Nat) (line rest : List Nat) (fuel : Nat)
    (h43 : c ≠ 43) (h45 : c ≠ 45) (h58 : c ≠ 58) (h36 : c ≠ 36)
    (h42 : c ≠ 42) (h37 : c ≠ 37)
    (h10 : 10 ∉ line) (hfix : rstripCRLF line = line) :
    handleRequest (fuel + 1) (c :: (line ++ 13 :: 10 :: rest))
      = .ok (.bytes (c :: line), rest) := by
  have h10b : (10 : Nat) ∉ line ++ [13] := by
    intro hmem
    rcases List.mem_append.mp hmem with h | h
    · exact h10 h
    · simp at h
  rw [handleRequest_succ]
  rw [show line ++ 13 :: 10 :: rest = (line ++ [13]) ++ 10 :: rest by simp]
  rw [handleStep_unknownTag _ c _ _ _ (readLine_append (line ++ [13]) h10b rest)
    h43 h45 h58 h36 h42 h37]
  rw [show (line ++ [13]) ++ [10] = line ++ [13, 10] by simp]
  rw [rstripCRLF_append_crlf line hfix]

/-- C8, witness: the CRLF-terminated stream starting with the byte 33 (an
unrecognized tag) decodes to the literal byte string 33 80 73 78 71. -/
theorem C8_unknown_tag_witness :
    handleRequest (0 + 1) (33 :: ([80, 73, 78, 71] ++ 13 :: 10 :: []))
      = .ok (.bytes (33 :: [80, 73, 78, 71]), []) := by
  exact C8_unknown_tag 33 [80, 73, 78, 71] [] 0 (by decide) (by decide)
    (by decide) (by decide) (by decide) (by decide) (by decide) (by decide)

/-- C9, counterexample.  The claim says wholesale replacement is obtained
only by omitting the second RESTORE argument.  Passing the empty byte
string as the second argument is falsy, so the state is still replaced
wholesale: the local key k vanishes even though a second argument was
present. -/
theorem C9_counterexample :
    Server.get_response fsC9 stLocal (.array [.bytes Server.bRESTORE, pathP, .bytes []])
      = .ok (.bool true, snapC9)
    ∧ dictLookup snapC9.kv keyK = none := by
  refine ⟨by decide, by decide⟩

/-- C9, amended.  A second RESTORE argument is passed verbatim as the merge
flag and only its truthiness is consulted: any non-empty byte string
(including b"false" and b"0") selects merge semantics, while wholesale
replacement is obtained by omitting the argument or passing any falsy value
such as the empty byte string. -/
theorem C9_restore_merge_flag (fs : FS) (st loaded : ServerState) (p m : Value)
    (hfs : fs p = .found loaded) :
    Server.get_response fs st (.array [.bytes Server.bRESTORE, p, m])
      = Server.restore_from_disk fs st p m
    ∧ Server.restore_from_disk fs st p m
      = .ok (.bool true,
             if truthy m then ⟨dictUpdate loaded.kv st.kv, loaded.schedule⟩ else loaded)
    ∧ (∀ b : List Nat, b ≠ [] → truthy (.bytes b) = true)
    ∧ truthy (.bytes []) = false := by
  refine ⟨rfl, ?_, ?_, rfl⟩
  · unfold Server.restore_from_disk
    rw [hfs]
    by_cases ht : truthy m <;> simp [Server.set_state, ht]
  · intro b hb
    simp [truthy, hb]

/-- C9, witness: the amended theorem at the b"0" merge flag. -/
theorem C9_restore_merge_flag_witness :
    Server.get_response fsC9 stLocal (.array [.bytes Server.bRESTORE, pathP, .bytes [48]])
      = Server.restore_from_disk fsC9 stLocal pathP (.bytes [48])
    ∧ Server.restore_from_disk fsC9 stLocal pathP (.bytes [48])
      = .ok (.bool true,
             if truthy (.bytes [48]) then
               ⟨dictUpdate snapC9.kv stLocal.kv, snapC9.schedule⟩
             else snapC9)
    ∧ (∀ b : List Nat, b ≠ [] → truthy (.bytes b) = true)
    ∧ truthy (.bytes []) = false :=
  C9_restore_merge_flag fsC9 stLocal snapC9 pathP (.bytes [48]) (by decide)

/-- C10, confirmed.  The encoder emits a Float as an integer frame holding
the float truncated toward zero, decoding that frame yields an Integer, so
the fractional part is lost and no Float value round-trips through the
codec. -/
theorem C10_float_truncation (q : Rat) :
    encV (.float q) = 58 :: (intAscii (ratTrunc q) ++ [13, 10])
    ∧ decode (encV (.float q)) = .ok (.int (ratTrunc q), [])
    ∧ Value.int (ratTrunc q) ≠ Value.float q
    ∧ (q.den ≠ 1 → ((ratTrunc q : Rat) ≠ q)) := by
  refine ⟨by simp [encV], ?_, ?_, ?_⟩
  · unfold decode
    rw [show encV (.float q) = 58 :: (intAscii (ratTrunc q) ++ [13, 10]) by
      simp [encV]]
    rw [handleRequest_succ]
    rw [show 58 :: (intAscii (ratTrunc q) ++ [13, 10])
          = 58 :: (intAscii (ratTrunc q) ++ 13 :: 10 :: ([] : List Nat)) by simp]
    rw [handleStep_int _ _ _ _ (readIntLine_intAscii (ratTrunc q) [])]
  · intro h
    exact Value.noConfusion h
  · intro hden hcast
    exact hden (by rw [← hcast]; exact Rat.den_intCast _)

/-- C10, witness: the float 5/2 encodes as the integer 2 and does not
round-trip. -/
theorem C10_float_truncation_witness :
    decode (encV (.float qC10)) = .ok (.int (ratTrunc qC10), [])
    ∧ ((ratTrunc qC10 : Rat) ≠ qC10) :=
  ⟨(C10_float_truncation qC10).2.1,
   (C10_float_truncation qC10).2.2.2 (by decide)⟩

end MiniRedis
